import Mathlib

set_option autoImplicit false

/-
Verification of the pin-it bot (src/bot.py): a shallow embedding of the
voting-session lifecycle manager — VotingSession, the session store, the
rate-limited pin executor, the event handlers and the periodic cleanup —
together with proofs of the specified properties.

Modelling conventions:
* `discord.Message` objects are modelled by the three observations the core
  uses: the message id (`message.id`), the channel id (`message.channel.id`)
  and the creation timestamp (`message.created_at.timestamp()`).
* Clock readings (`asyncio.get_event_loop().time()`, floats in Python) are
  modelled as rationals.
* Python dicts are modelled as association lists with unique keys;
  `defaultdict(float)` is modelled by a lookup that defaults to 0 (the lazy
  insertion of the 0.0 default performed by a `defaultdict` read is
  observationally irrelevant and is not modelled).
* External side effects (whether `message.pin()` raises) enter as explicit
  Boolean parameters; each handler additionally reports which external pin
  call, if any, it made.
-/

namespace PinIt

/-- The observations of a `discord.Message` used by the core. -/
structure Message where
  id : Nat
  channelId : Nat
  createdAt : ℚ
  deriving DecidableEq

/-- Embedding of the `VotingSession` dataclass of src/bot.py. -/
structure VotingSession where
  target_message : Message
  votes : Finset Nat
  vote_count : Int
  deriving DecidableEq

/-- The dataclass defaults: `votes = set()`, `vote_count = 0`. -/
def VotingSession.mk0 (target : Message) : VotingSession :=
  ⟨target, ∅, 0⟩

/-- Embedding of `VotingSession.add_vote`: add a vote if the user has not
voted; returns the new session and whether a vote was added. -/
def VotingSession.add_vote (s : VotingSession) (user_id : Nat) : VotingSession × Bool :=
  if user_id ∉ s.votes then
    ({ s with votes := insert user_id s.votes, vote_count := s.vote_count + 1 }, true)
  else
    (s, false)

/-- Embedding of `VotingSession.remove_vote`: remove a vote if the user has
voted; returns the new session and whether a vote was removed. -/
def VotingSession.remove_vote (s : VotingSession) (user_id : Nat) : VotingSession × Bool :=
  if user_id ∈ s.votes then
    ({ s with votes := s.votes.erase user_id, vote_count := s.vote_count - 1 }, true)
  else
    (s, false)

/-- Python dict lookup `d.get(k)` on an association list. -/
def dictGet {α : Type} : List (Nat × α) → Nat → Option α
  | [], _ => none
  | (k2, v) :: rest, k => if k2 = k then some v else dictGet rest k

/-- Python dict assignment `d[k] = v`: replaces the binding if present,
appends it otherwise. -/
def dictSet {α : Type} : List (Nat × α) → Nat → α → List (Nat × α)
  | [], k, v => [(k, v)]
  | (k2, v2) :: rest, k, v =>
    if k2 = k then (k, v) :: rest else (k2, v2) :: dictSet rest k v

/-- Python dict deletion `del d[k]`. -/
def dictDel {α : Type} : List (Nat × α) → Nat → List (Nat × α)
  | [], _ => []
  | (k2, v2) :: rest, k =>
    if k2 = k then rest else (k2, v2) :: dictDel rest k

/-- Read with the `defaultdict(float)` default: a missing channel reads
as time 0.0. -/
def defaultGet (d : List (Nat × ℚ)) (k : Nat) : ℚ :=
  (dictGet d k).getD 0

/-- `PIN_COOLDOWN_SECONDS = 5.0` of src/bot.py. -/
def PIN_COOLDOWN_SECONDS : ℚ := 5

/-- The mutable state of a `PinBot` instance used by the core: the
configured confirmation cap, the bot's own user id (for self-checks), the
voting-session store and the per-channel pin cooldown map. -/
structure PinBot where
  confirm_cap : Int
  botUserId : Nat
  voting_sessions : List (Nat × VotingSession)
  pin_cooldown : List (Nat × ℚ)
  deriving DecidableEq

/-- Result of `pin_message_safely`: the new bot state, the returned Boolean,
and whether the external `message.pin()` call was made at all. -/
structure PinResult where
  bot : PinBot
  ok : Bool
  pinCalled : Bool
  deriving DecidableEq

/-- Embedding of `PinBot.pin_message_safely`. The rate check compares the
current monotonic time against the channel's recorded time (0.0 when
absent); the cooldown entry is written only after a successful external
pin. `pinSucceeds` tells whether the external `message.pin()` call would
succeed were it made. -/
def pin_message_safely (bot : PinBot) (current_time : ℚ) (message : Message)
    (pinSucceeds : Bool) : PinResult :=
  let channel_id := message.channelId
  if current_time - defaultGet bot.pin_cooldown channel_id < PIN_COOLDOWN_SECONDS then
    ⟨bot, false, false⟩
  else if pinSucceeds then
    ⟨{ bot with pin_cooldown := dictSet bot.pin_cooldown channel_id current_time },
      true, true⟩
  else
    ⟨bot, false, true⟩

/-- Result of a reaction handler: the new bot state and, when
`pin_message_safely` was invoked, the message it was invoked on. -/
structure ReactResult where
  bot : PinBot
  pinTarget : Option Message
  deriving DecidableEq

/-- Embedding of `PinBot.on_reaction_add`. The reaction is given by the id
of the reacted-to message, the reacting user's id and the emoji string;
`now` is the clock reading at the threshold check and `pinSucceeds` the
outcome of the external pin call, were it made. -/
def on_reaction_add (bot : PinBot) (messageId userId : Nat) (emoji : String)
    (now : ℚ) (pinSucceeds : Bool) : ReactResult :=
  if userId = bot.botUserId ∨ emoji ≠ "✅" then ⟨bot, none⟩
  else
    match dictGet bot.voting_sessions messageId with
    | none => ⟨bot, none⟩
    | some session =>
      let r := session.add_vote userId
      let bot1 : PinBot :=
        { bot with voting_sessions := dictSet bot.voting_sessions messageId r.1 }
      if r.2 then
        if r.1.vote_count ≥ bot.confirm_cap then
          let p := pin_message_safely bot1 now r.1.target_message pinSucceeds
          if p.ok then
            ⟨{ p.bot with
                voting_sessions := dictDel p.bot.voting_sessions messageId },
              some r.1.target_message⟩
          else
            ⟨p.bot, some r.1.target_message⟩
        else
          ⟨bot1, none⟩
      else
        ⟨bot1, none⟩

/-- Embedding of `PinBot.on_reaction_remove`. -/
def on_reaction_remove (bot : PinBot) (messageId userId : Nat) (emoji : String) :
    PinBot :=
  if userId = bot.botUserId ∨ emoji ≠ "✅" then bot
  else
    match dictGet bot.voting_sessions messageId with
    | none => bot
    | some session =>
      { bot with
          voting_sessions :=
            dictSet bot.voting_sessions messageId (session.remove_vote userId).1 }

/-- The observations of an inbound `discord.Message` event used by
`on_message`. -/
structure InMessage where
  id : Nat
  authorId : Nat
  content : String
  reference : Option Nat
  channelId : Nat
  deriving DecidableEq

/-- Result of `on_message`: the new bot state, the pin-executor call target
when one was made, and whether a voting session was created. -/
structure MessageResult where
  bot : PinBot
  pinTarget : Option Message
  sessionCreated : Bool
  deriving DecidableEq

/-- The mention check of `on_message`: the content starts with the bot's
mention in either form (`content.startswith`, expressed on the character
sequences). -/
def mentionsBot (bot : PinBot) (content : String) : Bool :=
  List.isPrefixOf ("<@" ++ toString bot.botUserId ++ ">").data content.data ||
    List.isPrefixOf ("<@!" ++ toString bot.botUserId ++ ">").data content.data

/-- Embedding of `PinBot.on_message`. `fetched` is the result of the
external `fetch_message` lookup of the referenced message (`none` models
`discord.NotFound`); `now` and `pinSucceeds` feed the immediate-pin path. -/
def on_message (bot : PinBot) (msg : InMessage) (fetched : Option Message)
    (now : ℚ) (pinSucceeds : Bool) : MessageResult :=
  if msg.authorId = bot.botUserId ∨ msg.reference = none then ⟨bot, none, false⟩
  else if ¬ mentionsBot bot msg.content then ⟨bot, none, false⟩
  else
    match fetched with
    | none => ⟨bot, none, false⟩
    | some target =>
      if bot.confirm_cap = 0 then
        let p := pin_message_safely bot now target pinSucceeds
        ⟨p.bot, some target, false⟩
      else
        ⟨{ bot with
            voting_sessions :=
              dictSet bot.voting_sessions msg.id (VotingSession.mk0 target) },
          none, true⟩

/-- The keys collected by one sweep of `periodic_cleanup`: sessions whose
target message is more than 3600 seconds old. -/
def sweepKeys (sessions : List (Nat × VotingSession)) (current_time : ℚ) :
    List Nat :=
  (sessions.filter
      (fun p => decide (current_time - p.2.target_message.createdAt > 3600))).map
    Prod.fst

/-- Embedding of one iteration of the `periodic_cleanup` loop body: collect
the expired keys, then delete each from the store. -/
def periodic_cleanup_sweep (bot : PinBot) (current_time : ℚ) : PinBot :=
  { bot with
      voting_sessions :=
        (sweepKeys bot.voting_sessions current_time).foldl dictDel
          bot.voting_sessions }

/-- A vote operation on a session: the argument is the user id. -/
inductive VoteOp where
  | add : Nat → VoteOp
  | remove : Nat → VoteOp
  deriving DecidableEq

/-- Apply one vote operation, keeping the resulting session. -/
def applyOp (s : VotingSession) : VoteOp → VotingSession
  | VoteOp.add u => (s.add_vote u).1
  | VoteOp.remove u => (s.remove_vote u).1

/-- Apply a sequence of vote operations from left to right. -/
def applyOps (s : VotingSession) (ops : List VoteOp) : VotingSession :=
  ops.foldl applyOp s

/-- Run a sequence of approval reactions by the given users on the message
`mid`, all at clock reading `now` and with external pin outcome `ps`;
returns the final bot state and, per event, the pin-executor call target of
that event (if any). -/
def react_run (mid : Nat) (now : ℚ) (ps : Bool) :
    PinBot → List Nat → PinBot × List (Option Message)
  | bot, [] => (bot, [])
  | bot, u :: us =>
    let r := on_reaction_add bot mid u ("✅") now ps
    let rest := react_run mid now ps r.bot us
    (rest.1, r.pinTarget :: rest.2)

/-- An atom of a handler's control flow relevant to the locking discipline:
acquiring/releasing the session lock, or awaiting an external platform
call. -/
inductive Action where
  | acquire : Action
  | release : Action
  | platformCall : String → Action
  deriving DecidableEq

/-- Checks that a trace makes no external platform call while the session
lock is held; `d` is the current lock depth. -/
def lockFree : List Action → Nat → Bool
  | [], _ => true
  | Action.acquire :: rest, d => lockFree rest (d + 1)
  | Action.release :: rest, d => lockFree rest (d - 1)
  | Action.platformCall _ :: rest, d => (d == 0) && lockFree rest d

/-- The action trace of `on_message`, by control-flow path. `triggered`:
the author/reference/mention checks all passed; `fetchOk`: the external
`fetch_message` succeeded; `capZero`: `confirm_cap == 0`; `rateAllowed`:
the rate limiter let `pin_message_safely` make the external pin call. The
error reply on `NotFound` is itself a platform call. -/
def on_message_trace (triggered fetchOk capZero rateAllowed : Bool) : List Action :=
  if ¬ triggered then []
  else if ¬ fetchOk then
    [Action.platformCall ("fetch_message"), Action.platformCall ("reply")]
  else if capZero then
    Action.platformCall ("fetch_message") ::
      (if rateAllowed then [Action.platformCall ("pin")] else [])
  else
    [Action.platformCall ("fetch_message"), Action.acquire, Action.release,
      Action.platformCall ("add_reaction"), Action.platformCall ("add_reaction"),
      Action.platformCall ("add_reaction")]

/-- The action trace of `on_reaction_add`, by control-flow path. `matched`:
not a self-reaction and the emoji is the approval emoji (the lock is taken
even when the session lookup fails); the pin call happens when a session
was found, the vote was new, the threshold was reached and the rate limiter
allowed the external call. -/
def on_reaction_add_trace (matched sessionFound voteAdded threshold rateAllowed :
    Bool) : List Action :=
  if ¬ matched then []
  else
    Action.acquire ::
      ((if sessionFound && voteAdded && threshold && rateAllowed then
          [Action.platformCall ("pin")]
        else []) ++ [Action.release])

/-- The action trace of `on_reaction_remove`: no external calls at all. -/
def on_reaction_remove_trace (matched : Bool) : List Action :=
  if matched then [Action.acquire, Action.release] else []

/-- Helper for `pyInt`: accumulate decimal digits, failing on any
non-digit character. -/
def pyIntAux : List Char → Nat → Option Nat
  | [], acc => some acc
  | c :: cs, acc =>
    if c.isDigit then pyIntAux cs (acc * 10 + (c.toNat - ('0').toNat))
    else none

/-- Model of Python's `int()` builtin on plain decimal strings: the digits
read in base 10, `none` (a `ValueError`) on an empty string or a non-digit
character. (Python's extra tolerance for whitespace, signs and underscores
is irrelevant here: `main` rejects every negative value anyway, and no
claim depends on those inputs.) -/
def pyInt (s : String) : Option Nat :=
  match s.data with
  | [] => none
  | cs => pyIntAux cs 0

/-- Embedding of the configuration parsing in `main`: `TOKEN` must be set
and non-empty; `CONFIRM_CAP` defaults to the string "3", must parse as an
integer and lie in [0, 10]. Returns the confirmation cap the process starts
with, or `none` when startup fails. -/
def main_startup (token : Option String) (confirm_cap_env : Option String) :
    Option Int :=
  match token with
  | none => none
  | some t =>
    if t = "" then none
    else
      match pyInt (confirm_cap_env.getD ("3")) with
      | none => none
      | some c =>
        if 0 ≤ (c : Int) ∧ (c : Int) ≤ 10 then some (c : Int) else none

/-! Association-list (Python dict) lemmas. -/

/-- The keys of a dict. A Python dict always has pairwise-distinct keys;
theorems carry this as a hypothesis where it matters. -/
def dictKeys {α : Type} (d : List (Nat × α)) : List Nat := d.map Prod.fst

theorem dictGet_eq_none_of_not_mem {α : Type} (d : List (Nat × α)) (k : Nat)
    (h : k ∉ dictKeys d) : dictGet d k = none := by
  induction d with
  | nil => rfl
  | cons p rest ih =>
    obtain ⟨k2, v2⟩ := p
    simp only [dictKeys, List.map_cons, List.mem_cons] at h
    push_neg at h
    have h1 : ¬ (k2 = k) := fun hh => h.1 hh.symm
    simp [dictGet, h1, ih (by simpa [dictKeys] using h.2)]

theorem dictGet_dictSet_self {α : Type} (d : List (Nat × α)) (k : Nat) (v : α) :
    dictGet (dictSet d k v) k = some v := by
  induction d with
  | nil => simp [dictGet, dictSet]
  | cons p rest ih =>
    obtain ⟨k2, v2⟩ := p
    by_cases h : k2 = k <;> simp [dictGet, dictSet, h, ih]

theorem dictGet_dictSet_other {α : Type} (d : List (Nat × α)) (k k' : Nat) (v : α)
    (h : k' ≠ k) : dictGet (dictSet d k v) k' = dictGet d k' := by
  have h1 : ¬ (k = k') := fun hh => h hh.symm
  induction d with
  | nil => simp [dictGet, dictSet, h1]
  | cons p rest ih =>
    obtain ⟨k2, v2⟩ := p
    by_cases h2 : k2 = k
    · have h3 : ¬ (k2 = k') := fun hh => h1 (h2 ▸ hh)
      simp [dictGet, dictSet, h2, h1, h3]
    · simp [dictGet, dictSet, h2, ih]

theorem dictKeys_dictSet_of_get {α : Type} (d : List (Nat × α)) (k : Nat) (v v' : α)
    (h : dictGet d k = some v') : dictKeys (dictSet d k v) = dictKeys d := by
  induction d with
  | nil => simp [dictGet] at h
  | cons p rest ih =>
    obtain ⟨k2, v2⟩ := p
    by_cases h2 : k2 = k
    · simp [dictKeys, dictSet, h2]
    · simp only [dictGet, if_neg h2] at h
      have h3 := ih h
      simp only [dictKeys, List.map_cons] at h3 ⊢
      simp [dictSet, h2, h3]

theorem dictGet_dictDel_self {α : Type} (d : List (Nat × α)) (k : Nat)
    (h : (dictKeys d).Nodup) : dictGet (dictDel d k) k = none := by
  induction d with
  | nil => rfl
  | cons p rest ih =>
    obtain ⟨k2, v2⟩ := p
    simp only [dictKeys, List.map_cons, List.nodup_cons] at h
    by_cases h2 : k2 = k
    · subst h2
      simp only [dictDel, if_pos rfl]
      exact dictGet_eq_none_of_not_mem rest k2 (by simpa [dictKeys] using h.1)
    · simp [dictDel, dictGet, h2, ih (by simpa [dictKeys] using h.2)]

theorem dictGet_dictDel_other {α : Type} (d : List (Nat × α)) (k k' : Nat)
    (h : k' ≠ k) : dictGet (dictDel d k) k' = dictGet d k' := by
  induction d with
  | nil => rfl
  | cons p rest ih =>
    obtain ⟨k2, v2⟩ := p
    by_cases h2 : k2 = k
    · have h3 : ¬ (k2 = k') := fun hh => h (hh ▸ h2)
      have h4 : ¬ (k = k') := fun hh => h hh.symm
      simp [dictDel, dictGet, h2, h3, h4]
    · simp [dictDel, dictGet, h2, ih]

theorem dictKeys_dictDel_sublist {α : Type} (d : List (Nat × α)) (k : Nat) :
    List.Sublist (dictKeys (dictDel d k)) (dictKeys d) := by
  induction d with
  | nil => exact List.Sublist.refl _
  | cons p rest ih =>
    obtain ⟨k2, v2⟩ := p
    by_cases h2 : k2 = k
    · simp only [dictDel, dictKeys, if_pos h2, List.map_cons]
      exact List.sublist_cons_self k2 (List.map Prod.fst rest)
    · simpa [dictDel, dictKeys, h2] using List.Sublist.cons₂ k2 ih

theorem dictGet_foldl_dictDel {α : Type} (L : List Nat) (d : List (Nat × α))
    (h : (dictKeys d).Nodup) (k : Nat) :
    dictGet (L.foldl dictDel d) k = if k ∈ L then none else dictGet d k := by
  induction L generalizing d with
  | nil => simp
  | cons a L ih =>
    have hnd : (dictKeys (dictDel d a)).Nodup :=
      (dictKeys_dictDel_sublist d a).nodup h
    rw [List.foldl_cons, ih _ hnd]
    by_cases hk : k = a
    · subst hk
      simp only [List.mem_cons, true_or, if_pos]
      split
      · rfl
      · exact dictGet_dictDel_self d k h
    · rw [dictGet_dictDel_other d a k hk]
      simp [List.mem_cons, hk]

theorem mem_of_dictGet_eq_some {α : Type} {d : List (Nat × α)} {k : Nat} {v : α}
    (h : dictGet d k = some v) : (k, v) ∈ d := by
  induction d with
  | nil => simp [dictGet] at h
  | cons p rest ih =>
    obtain ⟨k2, v2⟩ := p
    by_cases h2 : k2 = k
    · subst h2
      have h4 : v2 = v := by simpa [dictGet] using h
      subst h4
      exact List.mem_cons_self _ _
    · simp only [dictGet, if_neg h2] at h
      exact List.mem_cons_of_mem _ (ih h)

theorem dictGet_of_mem_nodup {α : Type} {d : List (Nat × α)} {k : Nat} {v : α}
    (hnd : (dictKeys d).Nodup) (h : (k, v) ∈ d) : dictGet d k = some v := by
  induction d with
  | nil => simp at h
  | cons p rest ih =>
    obtain ⟨k2, v2⟩ := p
    simp only [dictKeys, List.map_cons, List.nodup_cons] at hnd
    rcases List.mem_cons.mp h with h1 | h1
    · injection h1 with hk hv
      subst hk
      subst hv
      simp [dictGet]
    · have hne : k2 ≠ k := by
        intro he
        subst he
        exact hnd.1 (by simpa [dictKeys] using List.mem_map_of_mem Prod.fst h1)
      simp [dictGet, hne, ih (by simpa [dictKeys] using hnd.2) h1]

/-! Claim theorems. -/

theorem count_inv_applyOp (s : VotingSession)
    (h : s.vote_count = (s.votes.card : Int)) (op : VoteOp) :
    (applyOp s op).vote_count = ((applyOp s op).votes.card : Int) := by
  cases op with
  | add u =>
    by_cases hu : u ∈ s.votes
    · simpa [applyOp, VotingSession.add_vote, hu] using h
    · simp [applyOp, VotingSession.add_vote, hu, Finset.card_insert_of_not_mem, h]
  | remove u =>
    by_cases hu : u ∈ s.votes
    · have h1 : 1 ≤ s.votes.card := Finset.card_pos.mpr ⟨u, hu⟩
      simp only [applyOp, VotingSession.remove_vote, if_pos hu,
        Finset.card_erase_of_mem hu]
      omega
    · simpa [applyOp, VotingSession.remove_vote, hu] using h

/-- Claim C4: starting from the empty session, after any sequence of
`add_vote` / `remove_vote` operations the cached `vote_count` equals the
cardinality of the `votes` set (hence it does so after every operation of
any sequence). -/
theorem C4_count_invariant (target : Message) (ops : List VoteOp) :
    (applyOps (VotingSession.mk0 target) ops).vote_count =
      ((applyOps (VotingSession.mk0 target) ops).votes.card : Int) := by
  suffices h : ∀ s : VotingSession, s.vote_count = (s.votes.card : Int) →
      (applyOps s ops).vote_count = ((applyOps s ops).votes.card : Int) by
    exact h _ (by simp [VotingSession.mk0])
  induction ops with
  | nil => intro s hs; simpa [applyOps] using hs
  | cons op ops ih =>
    intro s hs
    simpa [applyOps] using ih (applyOp s op) (count_inv_applyOp s hs op)

/-- Claim C7: `add_vote` is idempotent (the second application with the
same user returns `false` and leaves the state unchanged), `remove_vote`
changes state at most once, and `remove_vote` of an absent user is a
`false`-returning no-op. -/
theorem C7_idempotence (s : VotingSession) (u : Nat) :
    (s.add_vote u).1.add_vote u = ((s.add_vote u).1, false) ∧
    (s.remove_vote u).1.remove_vote u = ((s.remove_vote u).1, false) ∧
    (u ∉ s.votes → s.remove_vote u = (s, false)) := by
  refine ⟨?_, ?_, ?_⟩
  · by_cases hu : u ∈ s.votes <;> simp [VotingSession.add_vote, hu]
  · by_cases hu : u ∈ s.votes <;> simp [VotingSession.remove_vote, hu]
  · intro hu; simp [VotingSession.remove_vote, hu]

theorem C7_idempotence_witness :
    (⟨⟨1, 2, 0⟩, ∅, 0⟩ : VotingSession).remove_vote 7 = (⟨⟨1, 2, 0⟩, ∅, 0⟩, false) :=
  (C7_idempotence ⟨⟨1, 2, 0⟩, ∅, 0⟩ 7).2.2 (by decide)

/-- Claim C10: when the `CONFIRM_CAP` environment variable is unset (and
`TOKEN` is set and non-empty), startup succeeds with the default
confirmation cap 3. -/
theorem C10_default_confirm_cap (token : String) (h : token ≠ "") :
    main_startup (some token) none = some 3 := by
  have h3 : pyInt (("3" : String)) = some 3 := by decide
  unfold main_startup
  simp [h, h3]

theorem C10_default_confirm_cap_witness :
    main_startup (some ("x")) none = some 3 :=
  C10_default_confirm_cap ("x") (by decide)

theorem pin_message_safely_sessions (bot : PinBot) (t : ℚ) (m : Message)
    (ps : Bool) :
    (pin_message_safely bot t m ps).bot.voting_sessions = bot.voting_sessions := by
  unfold pin_message_safely
  by_cases hc : t - defaultGet bot.pin_cooldown m.channelId < PIN_COOLDOWN_SECONDS
  · simp [hc]
  · cases ps <;> simp [hc]

/-- Claim C9: with `confirm_cap = 0`, a valid trigger message (not from the
bot, carrying a reply reference, starting with the bot mention, with the
referenced message resolvable) invokes the pin executor immediately on the
referenced message and creates no voting session. -/
theorem C9_immediate_pin (bot : PinBot) (msg : InMessage) (target : Message)
    (r : Nat) (now : ℚ) (pinSucceeds : Bool)
    (hauthor : msg.authorId ≠ bot.botUserId)
    (href : msg.reference = some r)
    (hmention : mentionsBot bot msg.content = true)
    (hcap : bot.confirm_cap = 0) :
    (on_message bot msg (some target) now pinSucceeds).pinTarget = some target ∧
    (on_message bot msg (some target) now pinSucceeds).sessionCreated = false ∧
    (on_message bot msg (some target) now pinSucceeds).bot.voting_sessions =
      bot.voting_sessions := by
  simp [on_message, href, hauthor, hmention, hcap, pin_message_safely_sessions]

theorem C9_immediate_pin_witness :
    (on_message ⟨0, 1, [], []⟩ ⟨10, 2, ("<@1> pin"), some 20, 3⟩
        (some ⟨20, 3, 0⟩) 6 true).pinTarget = some ⟨20, 3, 0⟩ ∧
    (on_message ⟨0, 1, [], []⟩ ⟨10, 2, ("<@1> pin"), some 20, 3⟩
        (some ⟨20, 3, 0⟩) 6 true).sessionCreated = false ∧
    (on_message ⟨0, 1, [], []⟩ ⟨10, 2, ("<@1> pin"), some 20, 3⟩
        (some ⟨20, 3, 0⟩) 6 true).bot.voting_sessions =
      ([] : List (Nat × VotingSession)) :=
  C9_immediate_pin ⟨0, 1, [], []⟩ ⟨10, 2, ("<@1> pin"), some 20, 3⟩ ⟨20, 3, 0⟩
    20 6 true (by decide) rfl (by decide) rfl

/-- Claim C6 as stated is false: `on_message` performs no duplicate-key
check. With a session for trigger key 100 already present and holding one
vote, a second trigger message with the same id silently replaces it with
a fresh empty session for the newly fetched target. -/
theorem C6_counterexample :
    dictGet ((⟨2, 1, [(100, ⟨⟨50, 3, 0⟩, {7}, 1⟩)], []⟩ : PinBot)).voting_sessions
        100 = some ⟨⟨50, 3, 0⟩, {7}, 1⟩ ∧
    dictGet (on_message ⟨2, 1, [(100, ⟨⟨50, 3, 0⟩, {7}, 1⟩)], []⟩
          ⟨100, 9, ("<@1> pin"), some 55, 3⟩ (some ⟨55, 3, 0⟩) 0
          true).bot.voting_sessions 100 = some ⟨⟨55, 3, 0⟩, ∅, 0⟩ ∧
    some (⟨⟨55, 3, 0⟩, ∅, 0⟩ : VotingSession) ≠ some ⟨⟨50, 3, 0⟩, {7}, 1⟩ := by
  refine ⟨rfl, ?_, by decide⟩
  decide

/-- Claim C6 (amended): a second create under an existing trigger key is
not rejected — `on_message` unconditionally assigns a fresh empty session
for the newly fetched target to the key, replacing whatever session was
stored there. -/
theorem C6_create_overwrites (bot : PinBot) (msg : InMessage) (target : Message)
    (r : Nat) (now : ℚ) (ps : Bool)
    (hauthor : msg.authorId ≠ bot.botUserId)
    (href : msg.reference = some r)
    (hmention : mentionsBot bot msg.content = true)
    (hcap : bot.confirm_cap ≠ 0) :
    (on_message bot msg (some target) now ps).sessionCreated = true ∧
    dictGet (on_message bot msg (some target) now ps).bot.voting_sessions msg.id =
      some (VotingSession.mk0 target) := by
  simp [on_message, href, hauthor, hmention, hcap, dictGet_dictSet_self]

theorem C6_create_overwrites_witness :
    (on_message ⟨2, 1, [(100, ⟨⟨50, 3, 0⟩, {7}, 1⟩)], []⟩
        ⟨100, 9, ("<@1> pin"), some 55, 3⟩ (some ⟨55, 3, 0⟩) 0 true).sessionCreated =
      true ∧
    dictGet (on_message ⟨2, 1, [(100, ⟨⟨50, 3, 0⟩, {7}, 1⟩)], []⟩
          ⟨100, 9, ("<@1> pin"), some 55, 3⟩ (some ⟨55, 3, 0⟩) 0
          true).bot.voting_sessions 100 =
      some (VotingSession.mk0 ⟨55, 3, 0⟩) :=
  C6_create_overwrites ⟨2, 1, [(100, ⟨⟨50, 3, 0⟩, {7}, 1⟩)], []⟩
    ⟨100, 9, ("<@1> pin"), some 55, 3⟩ ⟨55, 3, 0⟩ 55 0 true (by decide) rfl
    (by decide) (by decide)

/-- Claim C5 as stated is false on the missing-entry case: with no cooldown
entry for channel 4 at all, a pin attempt at monotonic time 2 is rate
limited and makes no external call — the missing entry reads as time 0.0
rather than allowing the pin immediately. -/
theorem C5_counterexample :
    dictGet ((⟨3, 1, [], []⟩ : PinBot)).pin_cooldown 4 = none ∧
    pin_message_safely ⟨3, 1, [], []⟩ 2 ⟨50, 4, 0⟩ true =
      ⟨⟨3, 1, [], []⟩, false, false⟩ := by
  refine ⟨rfl, ?_⟩
  norm_num [pin_message_safely, defaultGet, dictGet, PIN_COOLDOWN_SECONDS]

/-- Claim C5 (amended): the gate lets the external pin call happen iff at
least `PIN_COOLDOWN_SECONDS` have elapsed since the channel's recorded
last-pin time, a missing entry reading as time 0 (not as an immediate
allow); `true` is returned — and the attempt time recorded — iff
additionally the external pin succeeds; consequently, of two attempts on
the same channel less than the cooldown apart where the first succeeds, the
second is denied without an external call. -/
theorem C5_rate_limiter (bot : PinBot) (t1 t2 : ℚ) (m : Message) (ps : Bool) :
    ((pin_message_safely bot t1 m ps).ok = true ↔
      5 ≤ t1 - defaultGet bot.pin_cooldown m.channelId ∧ ps = true) ∧
    ((pin_message_safely bot t1 m ps).pinCalled = true ↔
      5 ≤ t1 - defaultGet bot.pin_cooldown m.channelId) ∧
    ((pin_message_safely bot t1 m ps).ok = true →
      defaultGet (pin_message_safely bot t1 m ps).bot.pin_cooldown m.channelId =
        t1) ∧
    (5 ≤ t1 - defaultGet bot.pin_cooldown m.channelId → t2 - t1 < 5 →
      (pin_message_safely (pin_message_safely bot t1 m true).bot t2 m true).ok =
        false ∧
      (pin_message_safely (pin_message_safely bot t1 m true).bot t2 m
          true).pinCalled = false) := by
  by_cases hc : t1 - defaultGet bot.pin_cooldown m.channelId < PIN_COOLDOWN_SECONDS
  · have hc5 : ¬ (5 ≤ t1 - defaultGet bot.pin_cooldown m.channelId) := by
      rw [not_le]
      exact hc
    refine ⟨?_, ?_, ?_, ?_⟩
    · simp [pin_message_safely, hc, hc5]
    · simp [pin_message_safely, hc, hc5]
    · simp [pin_message_safely, hc]
    · intro h5
      exact absurd h5 hc5
  · have hc5 : 5 ≤ t1 - defaultGet bot.pin_cooldown m.channelId := by
      rw [← not_lt]
      exact hc
    have hrec :
        defaultGet (dictSet bot.pin_cooldown m.channelId t1) m.channelId = t1 := by
      simp [defaultGet, dictGet_dictSet_self]
    refine ⟨?_, ?_, ?_, ?_⟩
    · cases ps <;> simp [pin_message_safely, hc, hc5]
    · cases ps <;> simp [pin_message_safely, hc, hc5]
    · cases ps <;> simp [pin_message_safely, hc, hrec]
    · intro _ ht2
      have hfirst :
          (pin_message_safely bot t1 m true).bot.pin_cooldown =
            dictSet bot.pin_cooldown m.channelId t1 := by
        simp [pin_message_safely, hc]
      obtain ⟨b1, hb1⟩ : ∃ b1, (pin_message_safely bot t1 m true).bot = b1 :=
        ⟨_, rfl⟩
      rw [hb1] at hfirst ⊢
      have hsecond :
          t2 - defaultGet b1.pin_cooldown m.channelId < PIN_COOLDOWN_SECONDS := by
        rw [hfirst, hrec]
        exact ht2
      constructor <;> simp [pin_message_safely, hsecond]

theorem C5_rate_limiter_witness :
    (pin_message_safely ⟨3, 1, [], []⟩ 10 ⟨50, 4, 0⟩ true).ok = true ∧
    (pin_message_safely (pin_message_safely ⟨3, 1, [], []⟩ 10 ⟨50, 4, 0⟩ true).bot
        12 ⟨50, 4, 0⟩ true).ok = false ∧
    (pin_message_safely (pin_message_safely ⟨3, 1, [], []⟩ 10 ⟨50, 4, 0⟩ true).bot
        12 ⟨50, 4, 0⟩ true).pinCalled = false := by
  have h := C5_rate_limiter ⟨3, 1, [], []⟩ 10 12 ⟨50, 4, 0⟩ true
  have hgap : (10 : ℚ) - defaultGet ([] : List (Nat × ℚ)) 4 ≥ 5 := by
    norm_num [defaultGet, dictGet]
  refine ⟨h.1.mpr ⟨hgap, rfl⟩, (h.2.2.2 hgap (by norm_num)).1,
    (h.2.2.2 hgap (by norm_num)).2⟩

theorem mem_sweepKeys_iff (d : List (Nat × VotingSession)) (now : ℚ) (k : Nat)
    (s : VotingSession) (hnd : (dictKeys d).Nodup)
    (hs : dictGet d k = some s) :
    k ∈ sweepKeys d now ↔ now - s.target_message.createdAt > 3600 := by
  unfold sweepKeys
  constructor
  · intro hk
    obtain ⟨p, hp, hpk⟩ := List.mem_map.mp hk
    obtain ⟨hpd, hpP⟩ := List.mem_filter.mp hp
    have hg : dictGet d p.1 = some p.2 :=
      dictGet_of_mem_nodup hnd (by simpa using hpd)
    rw [hpk, hs] at hg
    have hps : p.2 = s := by
      injection hg with h
      exact h.symm
    rw [← hps]
    simpa using hpP
  · intro hexp
    refine List.mem_map.mpr
      ⟨(k, s), List.mem_filter.mpr ⟨mem_of_dictGet_eq_some hs, ?_⟩, rfl⟩
    simpa using hexp

/-- Claim C2 as stated is false at the boundary: `periodic_cleanup` uses a
strict comparison (`> 3600`), so a sweep run exactly 3600 seconds after
the target's creation — a time ≥ T + sessionMaxAgeSeconds — leaves the
session in the store. -/
theorem C2_counterexample :
    dictGet (periodic_cleanup_sweep ⟨3, 1, [(5, ⟨⟨9, 2, 0⟩, ∅, 0⟩)], []⟩
        3600).voting_sessions 5 = some ⟨⟨9, 2, 0⟩, ∅, 0⟩ := by
  have hfilter : sweepKeys [(5, (⟨⟨9, 2, 0⟩, ∅, 0⟩ : VotingSession))] 3600 = [] := by
    norm_num [sweepKeys, List.filter]
  norm_num [periodic_cleanup_sweep, hfilter, dictGet]

/-- Claim C2 (amended): a cleanup sweep removes a stored session iff the
sweep runs strictly more than 3600 seconds after the target message's
creation; a sweep run at or before exactly creation + 3600 leaves the
session present and unmodified. -/
theorem C2_expiry (bot : PinBot) (now : ℚ) (k : Nat) (s : VotingSession)
    (hnd : (dictKeys bot.voting_sessions).Nodup)
    (hs : dictGet bot.voting_sessions k = some s) :
    ((now - s.target_message.createdAt > 3600) →
      dictGet (periodic_cleanup_sweep bot now).voting_sessions k = none) ∧
    ((now - s.target_message.createdAt ≤ 3600) →
      dictGet (periodic_cleanup_sweep bot now).voting_sessions k = some s) := by
  have hmem := mem_sweepKeys_iff bot.voting_sessions now k s hnd hs
  have hget : (periodic_cleanup_sweep bot now).voting_sessions =
      (sweepKeys bot.voting_sessions now).foldl dictDel bot.voting_sessions := rfl
  rw [hget, dictGet_foldl_dictDel _ _ hnd]
  constructor
  · intro h
    rw [if_pos (hmem.mpr h)]
  · intro h
    rw [if_neg (fun hk => absurd (hmem.mp hk) (not_lt.mpr h))]
    exact hs

theorem C2_expiry_witness :
    dictGet (periodic_cleanup_sweep ⟨3, 1, [(5, ⟨⟨9, 2, 0⟩, ∅, 0⟩)], []⟩
        4000).voting_sessions 5 = none :=
  (C2_expiry ⟨3, 1, [(5, ⟨⟨9, 2, 0⟩, ∅, 0⟩)], []⟩ 4000 5 ⟨⟨9, 2, 0⟩, ∅, 0⟩
      (by decide) rfl).1 (by norm_num)

/-- Claim C1 as stated is false: with `confirm_cap = 1`, a vote that
reaches the threshold invokes the pin executor, but when the external pin
fails the session is NOT removed — `on_reaction_add` deletes the session
only inside `if success:`. Here the pin attempt fails (`pinSucceeds =
false`) and the session is still in the store afterwards. -/
theorem C1_counterexample :
    (on_reaction_add ⟨1, 1, [(5, ⟨⟨50, 4, 0⟩, ∅, 0⟩)], []⟩ 5 7 ("✅") 100
        false).pinTarget = some ⟨50, 4, 0⟩ ∧
    dictGet (on_reaction_add ⟨1, 1, [(5, ⟨⟨50, 4, 0⟩, ∅, 0⟩)], []⟩ 5 7 ("✅") 100
        false).bot.voting_sessions 5 = some ⟨⟨50, 4, 0⟩, {7}, 1⟩ := by
  constructor <;>
    norm_num [on_reaction_add, dictGet, dictSet, VotingSession.add_vote,
      pin_message_safely, defaultGet, PIN_COOLDOWN_SECONDS]

/-- Claim C1 (amended): when a reaction-add raises a session's vote count
to at least the cap, the pin executor is called with the session's target
message, but the session is removed from the store only when the pin
attempt reports success; when the attempt is rate limited or the external
pin fails, the session (with the new vote recorded) remains in the store. -/
theorem C1_threshold_removal (bot : PinBot) (mid uid : Nat) (now : ℚ) (ps : Bool)
    (s : VotingSession)
    (hnd : (dictKeys bot.voting_sessions).Nodup)
    (hs : dictGet bot.voting_sessions mid = some s)
    (huid : uid ≠ bot.botUserId)
    (hvote : uid ∉ s.votes)
    (hcap : s.vote_count + 1 ≥ bot.confirm_cap) :
    (on_reaction_add bot mid uid ("✅") now ps).pinTarget =
      some s.target_message ∧
    (dictGet (on_reaction_add bot mid uid ("✅") now ps).bot.voting_sessions mid =
        none ↔
      5 ≤ now - defaultGet bot.pin_cooldown s.target_message.channelId ∧
        ps = true) := by
  by_cases hc : now - defaultGet bot.pin_cooldown s.target_message.channelId <
      PIN_COOLDOWN_SECONDS
  · have h5 : ¬ (5 ≤ now - defaultGet bot.pin_cooldown s.target_message.channelId) :=
      not_le.mpr hc
    constructor
    · simp [on_reaction_add, hs, huid, VotingSession.add_vote, hvote, hcap,
        pin_message_safely, hc]
    · simp [on_reaction_add, hs, huid, VotingSession.add_vote, hvote, hcap,
        pin_message_safely, hc, dictGet_dictSet_self, h5]
  · have h5 : 5 ≤ now - defaultGet bot.pin_cooldown s.target_message.channelId :=
      not_lt.mp hc
    have hnd2 : (dictKeys (dictSet bot.voting_sessions mid
        ⟨s.target_message, insert uid s.votes, s.vote_count + 1⟩)).Nodup := by
      rw [dictKeys_dictSet_of_get _ _ _ s hs]
      exact hnd
    cases ps
    · constructor
      · simp [on_reaction_add, hs, huid, VotingSession.add_vote, hvote, hcap,
          pin_message_safely, hc]
      · simp [on_reaction_add, hs, huid, VotingSession.add_vote, hvote, hcap,
          pin_message_safely, hc, dictGet_dictSet_self]
    · constructor
      · simp [on_reaction_add, hs, huid, VotingSession.add_vote, hvote, hcap,
          pin_message_safely, hc]
      · simp [on_reaction_add, hs, huid, VotingSession.add_vote, hvote, hcap,
          pin_message_safely, hc, dictGet_dictDel_self _ _ hnd2, h5]

theorem C1_threshold_removal_witness :
    (on_reaction_add ⟨1, 1, [(5, ⟨⟨50, 4, 0⟩, ∅, 0⟩)], []⟩ 5 7 ("✅") 100
        true).pinTarget = some ⟨50, 4, 0⟩ ∧
    (dictGet (on_reaction_add ⟨1, 1, [(5, ⟨⟨50, 4, 0⟩, ∅, 0⟩)], []⟩ 5 7 ("✅") 100
        true).bot.voting_sessions 5 = none ↔
      5 ≤ (100 : ℚ) - defaultGet ([] : List (Nat × ℚ)) 4 ∧ true = true) :=
  C1_threshold_removal ⟨1, 1, [(5, ⟨⟨50, 4, 0⟩, ∅, 0⟩)], []⟩ 5 7 100 true
    ⟨⟨50, 4, 0⟩, ∅, 0⟩ (by decide) rfl (by decide) (by decide) (by decide)

/-- Claim C8 as stated is false: in the threshold branch of
`on_reaction_add` (session found, vote applied, threshold reached, rate
limiter allowing the call), the external `message.pin()` call is awaited
while the session lock is held — the call sits between the lock acquire
and release in the handler's trace. -/
theorem C8_counterexample :
    lockFree (on_reaction_add_trace true true true true true) 0 = false := by
  decide

/-- Claim C8 (amended): `on_message` and `on_reaction_remove` perform all
their external platform calls outside the session lock on every
control-flow path, but `on_reaction_add` holds the session lock across its
external pin call exactly when a session is found, the vote is new, the
threshold is reached and the rate limiter lets the external call through. -/
theorem C8_lock_discipline :
    (∀ t f c r : Bool, lockFree (on_message_trace t f c r) 0 = true) ∧
    (∀ m : Bool, lockFree (on_reaction_remove_trace m) 0 = true) ∧
    (∀ m sf v th ra : Bool,
      lockFree (on_reaction_add_trace m sf v th ra) 0 = true ↔
        ¬ (m = true ∧ sf = true ∧ v = true ∧ th = true ∧ ra = true)) := by
  refine ⟨?_, ?_, ?_⟩ <;> decide

theorem getD_map_none {α β : Type} (us : List α) (j : Nat) :
    (us.map (fun _ => (none : Option β))).getD j none = none := by
  induction us generalizing j with
  | nil => simp
  | cons u us ih => cases j <;> simp [ih]

theorem react_run_no_session (mid : Nat) (now : ℚ) (ps : Bool) (bot : PinBot)
    (users : List Nat) (h : dictGet bot.voting_sessions mid = none) :
    react_run mid now ps bot users = (bot, users.map (fun _ => none)) := by
  induction users with
  | nil => rfl
  | cons u us ih =>
    have hstep : on_reaction_add bot mid u ("✅") now ps = ⟨bot, none⟩ := by
      by_cases hu : u = bot.botUserId
      · simp [on_reaction_add, hu]
      · simp [on_reaction_add, hu, h]
    simp [react_run, hstep, ih]

theorem react_run_spec (mid : Nat) (now : ℚ) (users : List Nat) (bot : PinBot)
    (s : VotingSession) (cap count : Int) (target : Message)
    (hcap : bot.confirm_cap = cap)
    (hsc : s.vote_count = count)
    (htm : s.target_message = target)
    (hnd : (dictKeys bot.voting_sessions).Nodup)
    (hs : dictGet bot.voting_sessions mid = some s)
    (hnodup : users.Nodup)
    (hnew : ∀ u ∈ users, u ∉ s.votes ∧ u ≠ bot.botUserId)
    (hcount : count < cap)
    (hrate : 5 ≤ now - defaultGet bot.pin_cooldown target.channelId) :
    (∀ i : Nat,
      (react_run mid now true bot users).2.getD i none =
        if (i : Int) + 1 = cap - count ∧ i < users.length
        then some target else none) ∧
    ((users.length : Int) ≥ cap - count →
      dictGet (react_run mid now true bot users).1.voting_sessions mid = none) := by
  induction users generalizing bot s count with
  | nil =>
    refine ⟨?_, ?_⟩
    · intro i
      rw [if_neg ?_]
      · simp [react_run]
      · rintro ⟨-, h2⟩
        simp at h2
    · intro h
      exfalso
      simp at h
      omega
  | cons u us ih =>
    obtain ⟨hu_new, hu_bot⟩ := hnew u (List.mem_cons_self u us)
    have hc : ¬ (now - defaultGet bot.pin_cooldown target.channelId < 5) :=
      not_lt.mpr hrate
    by_cases hth : count + 1 ≥ cap
    · have hstep : on_reaction_add bot mid u ("✅") now true =
          ⟨⟨cap, bot.botUserId,
            dictDel (dictSet bot.voting_sessions mid
              ⟨target, insert u s.votes, count + 1⟩) mid,
            dictSet bot.pin_cooldown target.channelId now⟩,
            some target⟩ := by
        simp [on_reaction_add, hs, hu_bot, VotingSession.add_vote, hu_new, hsc,
          htm, hcap, hth, pin_message_safely, PIN_COOLDOWN_SECONDS, hc]
      have hnd2 : (dictKeys (dictSet bot.voting_sessions mid
          ⟨target, insert u s.votes, count + 1⟩)).Nodup := by
        rw [dictKeys_dictSet_of_get _ _ _ s hs]
        exact hnd
      have hdel : dictGet (dictDel (dictSet bot.voting_sessions mid
          ⟨target, insert u s.votes, count + 1⟩) mid) mid = none :=
        dictGet_dictDel_self _ _ hnd2
      have hrest := react_run_no_session mid now true
        ⟨cap, bot.botUserId,
          dictDel (dictSet bot.voting_sessions mid
            ⟨target, insert u s.votes, count + 1⟩) mid,
          dictSet bot.pin_cooldown target.channelId now⟩ us hdel
      have hwhole : react_run mid now true bot (u :: us) =
          (⟨cap, bot.botUserId,
            dictDel (dictSet bot.voting_sessions mid
              ⟨target, insert u s.votes, count + 1⟩) mid,
            dictSet bot.pin_cooldown target.channelId now⟩,
            some target :: us.map (fun _ => none)) := by
        simp [react_run, hstep, hrest]
      refine ⟨?_, ?_⟩
      · intro i
        rw [hwhole]
        cases i with
        | zero =>
          simp only [List.getD_cons_zero]
          rw [if_pos ⟨by push_cast; omega, by simp⟩]
        | succ j =>
          simp only [List.getD_cons_succ]
          rw [getD_map_none]
          rw [if_neg ?_]
          rintro ⟨h1, -⟩
          push_cast at h1
          omega
      · intro _
        rw [hwhole]
        exact hdel
    · have hth2 : ¬ (count + 1 ≥ cap) := hth
      have hstep : on_reaction_add bot mid u ("✅") now true =
          ⟨⟨cap, bot.botUserId,
            dictSet bot.voting_sessions mid ⟨target, insert u s.votes, count + 1⟩,
            bot.pin_cooldown⟩, none⟩ := by
        simp [on_reaction_add, hs, hu_bot, VotingSession.add_vote, hu_new, hsc,
          htm, hcap, hth2]
      have hs1 : dictGet (dictSet bot.voting_sessions mid
          ⟨target, insert u s.votes, count + 1⟩) mid =
          some ⟨target, insert u s.votes, count + 1⟩ :=
        dictGet_dictSet_self _ _ _
      have hnd1 : (dictKeys (dictSet bot.voting_sessions mid
          ⟨target, insert u s.votes, count + 1⟩)).Nodup := by
        rw [dictKeys_dictSet_of_get _ _ _ s hs]
        exact hnd
      obtain ⟨hu_us, hus_nodup⟩ := List.nodup_cons.mp hnodup
      have hnew1 : ∀ u2 ∈ us,
          u2 ∉ (⟨target, insert u s.votes, count + 1⟩ : VotingSession).votes ∧
          u2 ≠ (⟨cap, bot.botUserId,
            dictSet bot.voting_sessions mid ⟨target, insert u s.votes, count + 1⟩,
            bot.pin_cooldown⟩ : PinBot).botUserId := by
        intro u2 hu2
        refine ⟨?_, (hnew u2 (List.mem_cons_of_mem u hu2)).2⟩
        intro hmem
        rcases Finset.mem_insert.mp hmem with he | hm
        · exact hu_us (he ▸ hu2)
        · exact (hnew u2 (List.mem_cons_of_mem u hu2)).1 hm
      have hIH := ih
        ⟨cap, bot.botUserId,
          dictSet bot.voting_sessions mid ⟨target, insert u s.votes, count + 1⟩,
          bot.pin_cooldown⟩
        ⟨target, insert u s.votes, count + 1⟩ (count + 1) rfl rfl rfl hnd1 hs1
        hus_nodup hnew1 (by omega) hrate
      have hwhole : react_run mid now true bot (u :: us) =
          ((react_run mid now true
            ⟨cap, bot.botUserId,
              dictSet bot.voting_sessions mid ⟨target, insert u s.votes, count + 1⟩,
              bot.pin_cooldown⟩ us).1,
           none :: (react_run mid now true
            ⟨cap, bot.botUserId,
              dictSet bot.voting_sessions mid ⟨target, insert u s.votes, count + 1⟩,
              bot.pin_cooldown⟩ us).2) := by
       simp [react_run, hstep]
      refine ⟨?_, ?_⟩
      · intro i
        rw [hwhole]
        cases i with
        | zero =>
          simp only [List.getD_cons_zero]
          rw [if_neg ?_]
          rintro ⟨h1, -⟩
          push_cast at h1
          omega
        | succ j =>
          simp only [List.getD_cons_succ]
          rw [hIH.1 j]
          by_cases hcond : (j : Int) + 1 = cap - (count + 1) ∧ j < us.length
          · rw [if_pos hcond, if_pos ?_]
            obtain ⟨h1, h2⟩ := hcond
            refine ⟨by push_cast; omega, by simp; omega⟩
          · rw [if_neg hcond, if_neg ?_]
            rintro ⟨h1, h2⟩
            push_cast at h1
            simp at h2
            exact hcond ⟨by omega, by omega⟩
      · intro hlen
        rw [hwhole]
        refine hIH.2 ?_
        simp at hlen
        omega

/-- Claim C3 as stated is false on the code: with `confirm_cap = 1`, a
first distinct vote at a rate-limited moment (monotonic time 2, missing
cooldown entry reading as 0) invokes the pin executor but the session is
not retired; a second distinct vote at time 10 invokes it again, succeeds,
and only then retires the session — so the transition to Pinned (pin
invoked and session retired) happens at the 2nd distinct vote, requiring
more than N = 1 votes. -/
theorem C3_counterexample :
    (on_reaction_add ⟨1, 1, [(5, ⟨⟨50, 4, 0⟩, ∅, 0⟩)], []⟩ 5 7 ("✅") 2
        true).pinTarget = some ⟨50, 4, 0⟩ ∧
    dictGet (on_reaction_add ⟨1, 1, [(5, ⟨⟨50, 4, 0⟩, ∅, 0⟩)], []⟩ 5 7 ("✅") 2
        true).bot.voting_sessions 5 = some ⟨⟨50, 4, 0⟩, {7}, 1⟩ ∧
    (on_reaction_add (on_reaction_add ⟨1, 1, [(5, ⟨⟨50, 4, 0⟩, ∅, 0⟩)], []⟩ 5 7
        ("✅") 2 true).bot 5 8 ("✅") 10 true).pinTarget = some ⟨50, 4, 0⟩ ∧
    dictGet (on_reaction_add (on_reaction_add ⟨1, 1, [(5, ⟨⟨50, 4, 0⟩, ∅, 0⟩)], []⟩
        5 7 ("✅") 2 true).bot 5 8 ("✅") 10 true).bot.voting_sessions 5 =
      none := by
  have hstep1 : on_reaction_add ⟨1, 1, [(5, ⟨⟨50, 4, 0⟩, ∅, 0⟩)], []⟩ 5 7 ("✅") 2
      true = ⟨⟨1, 1, [(5, ⟨⟨50, 4, 0⟩, {7}, 1⟩)], []⟩, some ⟨50, 4, 0⟩⟩ := by
    norm_num [on_reaction_add, dictGet, dictSet, VotingSession.add_vote,
      pin_message_safely, defaultGet, PIN_COOLDOWN_SECONDS]
  have hstep2 : on_reaction_add ⟨1, 1, [(5, ⟨⟨50, 4, 0⟩, {7}, 1⟩)], []⟩ 5 8 ("✅")
      10 true = ⟨⟨1, 1, [], [(4, 10)]⟩, some ⟨50, 4, 0⟩⟩ := by
    norm_num [on_reaction_add, dictGet, dictSet, dictDel, VotingSession.add_vote,
      pin_message_safely, defaultGet, PIN_COOLDOWN_SECONDS]
  norm_num [hstep1, hstep2, dictGet]

/-- Claim C3 (amended): with `confirm_cap = N ≥ 1` and a fresh session for
key `mid`, for every sequence of approval reactions by pairwise-distinct
non-bot users — provided the pin attempt is allowed by the rate limiter and
the external pin succeeds — the pin executor is invoked with the session's
target exactly on the Nth vote (never earlier, never later), and as soon as
at least N votes have been delivered the session is gone from the store. -/
theorem C3_threshold (bot : PinBot) (mid : Nat) (now : ℚ) (users : List Nat)
    (target : Message)
    (hnd : (dictKeys bot.voting_sessions).Nodup)
    (hs : dictGet bot.voting_sessions mid = some (VotingSession.mk0 target))
    (hcap1 : 1 ≤ bot.confirm_cap)
    (hnodup : users.Nodup)
    (husers : ∀ u ∈ users, u ≠ bot.botUserId)
    (hrate : 5 ≤ now - defaultGet bot.pin_cooldown target.channelId) :
    (∀ i : Nat,
      (react_run mid now true bot users).2.getD i none =
        if (i : Int) + 1 = bot.confirm_cap ∧ i < users.length
        then some target else none) ∧
    ((users.length : Int) ≥ bot.confirm_cap →
      dictGet (react_run mid now true bot users).1.voting_sessions mid =
        none) := by
  have h := react_run_spec mid now users bot (VotingSession.mk0 target)
    bot.confirm_cap 0 target rfl rfl rfl hnd hs hnodup
    (fun u hu => ⟨by simp [VotingSession.mk0], husers u hu⟩) (by omega) hrate
  simpa using h

theorem C3_threshold_witness :
    (∀ i : Nat,
      (react_run 5 100 true ⟨2, 1, [(5, ⟨⟨50, 4, 0⟩, ∅, 0⟩)], []⟩ [7, 8, 9]).2.getD
          i none =
        if (i : Int) + 1 = 2 ∧ i < 3 then some ⟨50, 4, 0⟩ else none) ∧
    dictGet (react_run 5 100 true ⟨2, 1, [(5, ⟨⟨50, 4, 0⟩, ∅, 0⟩)], []⟩
        [7, 8, 9]).1.voting_sessions 5 = none := by
  have h := C3_threshold ⟨2, 1, [(5, ⟨⟨50, 4, 0⟩, ∅, 0⟩)], []⟩ 5 100 [7, 8, 9]
    ⟨50, 4, 0⟩ (by decide) rfl (by decide) (by decide)
    (by intro u hu; fin_cases hu <;> decide) (by norm_num [defaultGet, dictGet])
  exact ⟨fun i => by simpa using h.1 i, h.2 (by norm_num)⟩

end PinIt
